import Mathlib

/-!
Verification of the EHR application's security layer: the field-level
encryption subsystem (`server/src/utils/encryption.ts`), the role-based
access-control middleware (`server/src/middleware/rbac.ts`) and the
sensitive-field handling of the patient model (`server/src/models/Patient.ts`),
as embedded from the security guide's source listings.

Byte sequences (Node `Buffer`s) are lists of natural numbers, a faithful
byte being a value below 256.  The base64 transport encoding applied to a
finished envelope is a bijection between byte sequences and strings
("a reversible text encoding", design spec 4.3); it is modelled as the
identity, so every statement about an envelope string is phrased about its
decoded byte sequence.  The platform primitives the code delegates to
(`crypto.pbkdf2`, `crypto.createCipheriv`/`createDecipheriv` with
aes-256-gcm, `JSON.stringify`/`JSON.parse`) are not part of the repository;
they are modelled from the design specification as executable symbolic
stand-ins, each marked `Modelled from the spec:` at its definition.
-/

/-- Byte sequences (Node `Buffer`) as lists of natural numbers. -/
abbrev Bytes := List Nat

/-- Error kinds of the subsystem, named as in the design specification
(section 7).  `JsonError` stands for the platform `JSON.parse` syntax
error surfaced by `Patient.decrypt`. -/
inductive Err where
  | IntegrityError
  | MalformedEnvelope
  | KeyDerivationError
  | JsonError
  deriving DecidableEq

/-- Injective numeric encoding of a byte list: base-257 digits `b + 1`,
least-significant digit first.  Used by the symbolic models of the
platform crypto primitives below. -/
def encodeBytes (l : Bytes) : Nat :=
  l.foldr (fun b a => a * 257 + (b + 1)) 0

/-- Modelled from the spec: the platform key-derivation primitive
`crypto.pbkdf2` (Node built-in, absent from src/).  Spec 4.1 requires a
deterministic iterated one-way function from (secret, salt, iteration
count, key length) to a key of the requested length.  No claim depends on
the concrete key bytes, so the mixing below is an executable stand-in that
keeps the interface, determinism, totality and the output length and byte
range.  Node's primitive accepts any password (the empty string included)
and a salt of any length; it fails only when the digest is unavailable. -/
def pbkdf2 (password : String) (salt : Bytes) (iterations keyLen : Nat) : Bytes :=
  (List.range keyLen).map fun i =>
    (encodeBytes (password.toList.map Char.toNat) * 7 + encodeBytes salt * 13 +
      iterations * 17 + i * 19) % 256

/-- `const ALGORITHM = 'aes-256-gcm'` (src/unnamed/part_000:95). -/
def ALGORITHM : String := "aes-256-gcm"

/-- `const IV_LENGTH = 16` (src/unnamed/part_000:96). -/
def IV_LENGTH : Nat := 16

/-- `const SALT_LENGTH = 64` (src/unnamed/part_000:97). -/
def SALT_LENGTH : Nat := 64

/-- `const TAG_LENGTH = 16` (src/unnamed/part_000:98). -/
def TAG_LENGTH : Nat := 16

/-- `const KEY_LENGTH = 32` (src/unnamed/part_000:99). -/
def KEY_LENGTH : Nat := 32

/-- `const ITERATIONS = 100000` (src/unnamed/part_000:100). -/
def ITERATIONS : Nat := 100000

/-- Modelled from the spec: the aes-256-gcm keystream.  GCM encrypts in
counter mode, XORing the plaintext against a keystream determined by the
(derived key, nonce) pair and the byte position; the concrete keystream
bytes are an executable stand-in (deterministic, byte-valued). -/
def keystream (key iv : Bytes) (i : Nat) : Nat :=
  (encodeBytes key * 3 + encodeBytes iv * 5 + i * 7 + 11) % 256

/-- XOR a byte sequence against the keystream of `(key, iv)` starting at
position `i`; its own inverse at a fixed starting position. -/
def xorStream (key iv : Bytes) : Nat → Bytes → Bytes
  | _, [] => []
  | i, b :: rest => (b ^^^ keystream key iv i) :: xorStream key iv (i + 1) rest

/-- Modelled from the spec: the cipher body of `cipher.update`/`final`
(spec 4.2 `seal`): ciphertext = plaintext XOR keystream, length
preserving. -/
def sealBytes (key iv text : Bytes) : Bytes :=
  xorStream key iv 0 text

/-- Modelled from the spec: the decipher body of `decipher.update`/`final`
(spec 4.2 `open`, after the tag check passes). -/
def unsealBytes (key iv ct : Bytes) : Bytes :=
  xorStream key iv 0 ct

/-- Modelled from the spec: the GCM authentication tag
(`cipher.getAuthTag`).  Spec 4.2: `open` fails with `IntegrityError` when
the supplied tag does not match the recomputed tag over the given
ciphertext/key/nonce.  The AEAD is idealised as perfectly binding (the
symbolic-crypto reading of that contract): entry 0 of the model tag
carries an injective encoding of (key, nonce, ciphertext), padded with
zeros to `TAG_LENGTH` entries. -/
def gmac (key iv ct : Bytes) : Bytes :=
  encodeBytes (key ++ iv ++ ct) :: List.replicate (TAG_LENGTH - 1) 0

/-- Modelled from the spec: GCM decryption (`createDecipheriv` +
`setAuthTag` + `update`/`final`): recompute the tag over the received
ciphertext, compare it with the supplied tag, fail closed with
`IntegrityError` on any mismatch, otherwise return the full plaintext
(spec 4.2). -/
def openGCM (key iv tag ct : Bytes) : Except Err Bytes :=
  if tag = gmac key iv ct then .ok (unsealBytes key iv ct)
  else .error .IntegrityError

/-- `Encryption.deriveKey` (src/unnamed/part_000:135-142): a thin promise
wrapper around `crypto.pbkdf2` with the configured iteration count and
key length.  The code validates neither `key` nor `salt`; it only
propagates errors of the primitive, which raises none for any (password,
salt) byte inputs. -/
def Encryption.deriveKey (key : String) (salt : Bytes) : Bytes :=
  pbkdf2 key salt ITERATIONS KEY_LENGTH

/-- `Encryption.encrypt` (src/unnamed/part_000:103-118).  The fresh random
`iv` (16 bytes) and `salt` (64 bytes) drawn by `crypto.randomBytes` inside
the call are explicit arguments; the plaintext is the UTF-8 byte sequence
of the input string; the final `.toString('base64')` is the identity in
the byte-level model.  The envelope is
`Buffer.concat([salt, iv, tag, encrypted])`. -/
def Encryption.encrypt (text : Bytes) (key : String) (salt iv : Bytes) : Bytes :=
  let derivedKey := Encryption.deriveKey key salt
  let encrypted := sealBytes derivedKey iv text
  let tag := gmac derivedKey iv encrypted
  salt ++ iv ++ tag ++ encrypted

/-- `Encryption.decrypt` (src/unnamed/part_000:120-133):
`Buffer.from(encryptedText, 'base64')` (identity in the byte-level
model), then the four `buffer.slice` reads at the fixed offsets
(`slice a b` is `drop a` followed by `take (b - a)`), re-derivation of
the key from the embedded salt, and the AEAD open. -/
def Encryption.decrypt (encryptedText : Bytes) (key : String) : Except Err Bytes :=
  let buffer := encryptedText
  let salt := buffer.take SALT_LENGTH
  let iv := (buffer.drop SALT_LENGTH).take IV_LENGTH
  let tag := (buffer.drop (SALT_LENGTH + IV_LENGTH)).take TAG_LENGTH
  let encrypted := buffer.drop (SALT_LENGTH + IV_LENGTH + TAG_LENGTH)
  let derivedKey := Encryption.deriveKey key salt
  openGCM derivedKey iv tag encrypted

/-- `roles.ADMIN` (src/unnamed/part_000:45). -/
def roles.ADMIN : String := "admin"

/-- `roles.DOCTOR` (src/unnamed/part_000:46). -/
def roles.DOCTOR : String := "doctor"

/-- `roles.NURSE` (src/unnamed/part_000:47). -/
def roles.NURSE : String := "nurse"

/-- `roles.PATIENT` (src/unnamed/part_000:48). -/
def roles.PATIENT : String := "patient"

/-- `permissions.READ_PATIENT` (src/unnamed/part_000:52). -/
def permissions.READ_PATIENT : String := "read:patient"

/-- `permissions.WRITE_PATIENT` (src/unnamed/part_000:53). -/
def permissions.WRITE_PATIENT : String := "write:patient"

/-- `permissions.READ_RECORD` (src/unnamed/part_000:54). -/
def permissions.READ_RECORD : String := "read:record"

/-- `permissions.WRITE_RECORD` (src/unnamed/part_000:55). -/
def permissions.WRITE_RECORD : String := "write:record"

/-- `permissions.MANAGE_USERS` (src/unnamed/part_000:56). -/
def permissions.MANAGE_USERS : String := "manage:users"

/-- `Object.values(permissions)` in insertion order, the admin row of
`rolePermissions` (src/unnamed/part_000:60). -/
def permissionValues : List String :=
  [permissions.READ_PATIENT, permissions.WRITE_PATIENT, permissions.READ_RECORD,
    permissions.WRITE_RECORD, permissions.MANAGE_USERS]

/-- `rolePermissions` (src/unnamed/part_000:59-75): a JS object keyed by
the four role strings; indexing with any other key yields `undefined`,
modelled as `none`. -/
def rolePermissions (role : String) : Option (List String) :=
  if role = roles.ADMIN then some permissionValues
  else if role = roles.DOCTOR then
    some [permissions.READ_PATIENT, permissions.WRITE_PATIENT,
      permissions.READ_RECORD, permissions.WRITE_RECORD]
  else if role = roles.NURSE then
    some [permissions.READ_PATIENT, permissions.READ_RECORD,
      permissions.WRITE_RECORD]
  else if role = roles.PATIENT then some [permissions.READ_RECORD]
  else none

/-- The authenticated requester (`req.user`), carrying its role. -/
structure Principal where
  role : String
  deriving DecidableEq

/-- Outcome of the `checkPermission` middleware: `next()` or the 403
insufficient-permissions response. -/
inductive AuthResult where
  | next
  | forbidden
  deriving DecidableEq

/-- `checkPermission` (src/unnamed/part_000:77-85):
`if (!rolePermissions[userRole]?.includes(permission))` responds 403;
the optional chaining makes the lookup on an absent role yield
`undefined`, on which the guard denies. -/
def checkPermission (permission : String) (user : Principal) : AuthResult :=
  match rolePermissions user.role with
  | some perms => if perms.contains permission then .next else .forbidden
  | none => .forbidden

/-- The permission set mapped to a role: the table row, or the empty set
for a role absent from the table. -/
def permSetOf (role : String) : List String :=
  (rolePermissions role).getD []

/-- Modelled from the spec: `JSON.stringify` (platform built-in, absent
from src/), serialising a medical-history value to the byte sequence of
its JSON text.  The claims use only that serialisation is deterministic
and inverted by `JSON.parse`; medical histories are modelled as lists of
naturals and the serialisation as an executable injective byte encoding
(each entry as a unary run of 1s closed by a 0). -/
def jsonStringify (value : List Nat) : Bytes :=
  value.flatMap fun n => List.replicate n 1 ++ [0]

/-- Helper of `jsonParse`: split a byte sequence into runs of 1s closed
by 0s, `count` being the length of the currently open run.  An input
outside the range of `jsonStringify` is consumed leniently; only the
left-inverse law on that range matters to the claims. -/
def jsonParseRuns : Nat → Bytes → Option (List Nat)
  | _, [] => some []
  | count, 0 :: rest => (jsonParseRuns 0 rest).map fun t => count :: t
  | count, (_ + 1) :: rest => jsonParseRuns (count + 1) rest

/-- Modelled from the spec: `JSON.parse` (platform built-in, absent from
src/), the left inverse of `jsonStringify`. -/
def jsonParse (text : Bytes) : Option (List Nat) :=
  jsonParseRuns 0 text

/-- A patient row.  The dynamic JS object is modelled with the four
scalar columns of `validatePatient` (src/unnamed/part_000:184-189) plus
the two sensitive fields, whose types differ between the plaintext and
the encrypted view: `σ` for `ssn`, `μ` for `medicalHistory`. -/
structure PatientRecord (σ μ : Type) where
  firstName : String
  lastName : String
  dateOfBirth : String
  email : String
  ssn : σ
  medicalHistory : μ
  deriving DecidableEq

/-- `Patient.encrypt` (src/unnamed/part_000:154-163): spread the record
(`...patient`, copying every other field) and replace `ssn` and
`medicalHistory` with envelopes, the latter after `JSON.stringify`.  The
class constant `ENCRYPTION_KEY` and the salts and ivs drawn inside the
two `Encryption.encrypt` calls are explicit arguments. -/
def Patient.encrypt (patient : PatientRecord Bytes (List Nat)) (key : String)
    (salt1 iv1 salt2 iv2 : Bytes) : PatientRecord Bytes Bytes where
  firstName := patient.firstName
  lastName := patient.lastName
  dateOfBirth := patient.dateOfBirth
  email := patient.email
  ssn := Encryption.encrypt patient.ssn key salt1 iv1
  medicalHistory :=
    Encryption.encrypt (jsonStringify patient.medicalHistory) key salt2 iv2

/-- `Patient.decrypt` (src/unnamed/part_000:165-173): spread the record,
decrypt `ssn`, decrypt `medicalHistory` and `JSON.parse` the result; any
decryption failure propagates, a parse failure surfaces as the platform
syntax error. -/
def Patient.decrypt (patient : PatientRecord Bytes Bytes) (key : String) :
    Except Err (PatientRecord Bytes (List Nat)) :=
  match Encryption.decrypt patient.ssn key with
  | .error e => .error e
  | .ok ssn =>
    match Encryption.decrypt patient.medicalHistory key with
    | .error e => .error e
    | .ok mh =>
      match jsonParse mh with
      | some value =>
          .ok { firstName := patient.firstName, lastName := patient.lastName,
                dateOfBirth := patient.dateOfBirth, email := patient.email,
                ssn := ssn, medicalHistory := value }
      | none => .error .JsonError

/-! ### Helper lemmas -/

theorem encodeBytes_nil : encodeBytes [] = 0 := rfl

theorem encodeBytes_cons (b : Nat) (t : Bytes) :
    encodeBytes (b :: t) = encodeBytes t * 257 + (b + 1) := rfl

theorem encodeBytes_inj {l l' : Bytes} (h : ∀ b ∈ l, b < 256)
    (h' : ∀ b ∈ l', b < 256) (he : encodeBytes l = encodeBytes l') : l = l' := by
  induction l generalizing l' with
  | nil =>
    cases l' with
    | nil => rfl
    | cons b t =>
      rw [encodeBytes_nil, encodeBytes_cons] at he
      omega
  | cons b t ih =>
    cases l' with
    | nil =>
      rw [encodeBytes_nil, encodeBytes_cons] at he
      omega
    | cons b' t' =>
      rw [encodeBytes_cons, encodeBytes_cons] at he
      have hb : b < 256 := h b (List.mem_cons_self b t)
      have hb' : b' < 256 := h' b' (List.mem_cons_self b' t')
      have hbb : b = b' ∧ encodeBytes t = encodeBytes t' := by omega
      have ht := ih (fun x hx => h x (List.mem_cons_of_mem _ hx))
        (fun x hx => h' x (List.mem_cons_of_mem _ hx)) hbb.2
      rw [hbb.1, ht]

theorem pbkdf2_length (password : String) (salt : Bytes) (iterations keyLen : Nat) :
    (pbkdf2 password salt iterations keyLen).length = keyLen := by
  simp [pbkdf2]

theorem pbkdf2_lt (password : String) (salt : Bytes) (iterations keyLen : Nat) :
    ∀ b ∈ pbkdf2 password salt iterations keyLen, b < 256 := by
  intro b hb
  simp only [pbkdf2, List.mem_map] at hb
  obtain ⟨i, _, rfl⟩ := hb
  exact Nat.mod_lt _ (by omega)

theorem deriveKey_length (key : String) (salt : Bytes) :
    (Encryption.deriveKey key salt).length = KEY_LENGTH :=
  pbkdf2_length key salt ITERATIONS KEY_LENGTH

theorem deriveKey_lt (key : String) (salt : Bytes) :
    ∀ b ∈ Encryption.deriveKey key salt, b < 256 :=
  pbkdf2_lt key salt ITERATIONS KEY_LENGTH

theorem keystream_lt (key iv : Bytes) (i : Nat) : keystream key iv i < 256 :=
  Nat.mod_lt _ (by omega)

theorem xorStream_length (key iv : Bytes) (i : Nat) (l : Bytes) :
    (xorStream key iv i l).length = l.length := by
  induction l generalizing i with
  | nil => rfl
  | cons b t ih => simp [xorStream, ih]

theorem xorStream_xorStream (key iv : Bytes) (i : Nat) (l : Bytes) :
    xorStream key iv i (xorStream key iv i l) = l := by
  induction l generalizing i with
  | nil => rfl
  | cons b t ih =>
    simp only [xorStream, List.cons.injEq]
    exact ⟨by rw [Nat.xor_assoc, Nat.xor_self, Nat.xor_zero], ih (i + 1)⟩

theorem xorStream_lt (key iv : Bytes) (i : Nat) (l : Bytes)
    (h : ∀ b ∈ l, b < 256) : ∀ b ∈ xorStream key iv i l, b < 256 := by
  induction l generalizing i with
  | nil => intro b hb; simp [xorStream] at hb
  | cons c t ih =>
    intro b hb
    simp only [xorStream, List.mem_cons] at hb
    rcases hb with rfl | hb
    · have h1 : c < 2 ^ 8 := h c (List.mem_cons_self c t)
      have h2 : keystream key iv i < 2 ^ 8 := keystream_lt key iv i
      exact Nat.xor_lt_two_pow h1 h2
    · exact ih (i + 1) (fun x hx => h x (List.mem_cons_of_mem _ hx)) b hb

theorem sealBytes_length (key iv text : Bytes) :
    (sealBytes key iv text).length = text.length :=
  xorStream_length key iv 0 text

theorem sealBytes_lt (key iv text : Bytes) (h : ∀ b ∈ text, b < 256) :
    ∀ b ∈ sealBytes key iv text, b < 256 :=
  xorStream_lt key iv 0 text h

theorem gmac_length (key iv ct : Bytes) : (gmac key iv ct).length = TAG_LENGTH := by
  simp [gmac, TAG_LENGTH]

theorem gmac_inj {key iv ct ct' : Bytes} (hk : ∀ b ∈ key, b < 256)
    (hiv : ∀ b ∈ iv, b < 256) (hc : ∀ b ∈ ct, b < 256) (hc' : ∀ b ∈ ct', b < 256)
    (h : gmac key iv ct = gmac key iv ct') : ct = ct' := by
  simp only [gmac, List.cons.injEq] at h
  have hall : ∀ b ∈ key ++ iv ++ ct, b < 256 := by
    intro b hb
    simp only [List.mem_append] at hb
    rcases hb with (hb | hb) | hb
    · exact hk b hb
    · exact hiv b hb
    · exact hc b hb
  have hall' : ∀ b ∈ key ++ iv ++ ct', b < 256 := by
    intro b hb
    simp only [List.mem_append] at hb
    rcases hb with (hb | hb) | hb
    · exact hk b hb
    · exact hiv b hb
    · exact hc' b hb
  have := encodeBytes_inj hall hall' h.1
  rw [List.append_assoc, List.append_assoc] at this
  exact List.append_cancel_left (List.append_cancel_left this)

theorem envelope_slices (salt iv W : Bytes) (hs : salt.length = SALT_LENGTH)
    (hiv : iv.length = IV_LENGTH) :
    (salt ++ iv ++ W).take SALT_LENGTH = salt ∧
    ((salt ++ iv ++ W).drop SALT_LENGTH).take IV_LENGTH = iv ∧
    (salt ++ iv ++ W).drop (SALT_LENGTH + IV_LENGTH) = W := by
  rw [List.append_assoc]
  refine ⟨List.take_left' hs, ?_, ?_⟩
  · rw [List.drop_left' hs, List.take_left' hiv]
  · rw [← List.drop_drop, List.drop_left' hs, List.drop_left' hiv]

theorem envelope_slices4 (salt iv tag ct : Bytes) (hs : salt.length = SALT_LENGTH)
    (hiv : iv.length = IV_LENGTH) (ht : tag.length = TAG_LENGTH) :
    (salt ++ iv ++ tag ++ ct).take SALT_LENGTH = salt ∧
    ((salt ++ iv ++ tag ++ ct).drop SALT_LENGTH).take IV_LENGTH = iv ∧
    ((salt ++ iv ++ tag ++ ct).drop (SALT_LENGTH + IV_LENGTH)).take TAG_LENGTH = tag ∧
    (salt ++ iv ++ tag ++ ct).drop (SALT_LENGTH + IV_LENGTH + TAG_LENGTH) = ct := by
  have h3 := envelope_slices salt iv (tag ++ ct) hs hiv
  have harr : salt ++ iv ++ tag ++ ct = salt ++ iv ++ (tag ++ ct) := by
    simp [List.append_assoc]
  rw [harr]
  refine ⟨h3.1, h3.2.1, ?_, ?_⟩
  · rw [h3.2.2, List.take_left' ht]
  · rw [← List.drop_drop, h3.2.2, List.drop_left' ht]

theorem decrypt_encrypt_aux (text : Bytes) (key : String) (salt iv : Bytes)
    (hs : salt.length = SALT_LENGTH) (hiv : iv.length = IV_LENGTH) :
    Encryption.decrypt (Encryption.encrypt text key salt iv) key = .ok text := by
  have h4 := envelope_slices4 salt iv
    (gmac (Encryption.deriveKey key salt) iv
      (sealBytes (Encryption.deriveKey key salt) iv text))
    (sealBytes (Encryption.deriveKey key salt) iv text) hs hiv
    (gmac_length _ _ _)
  simp only [Encryption.encrypt, Encryption.decrypt]
  rw [h4.1, h4.2.1, h4.2.2.1, h4.2.2.2]
  simp only [openGCM, if_pos, sealBytes, unsealBytes, xorStream_xorStream]

theorem jsonParseRuns_replicate (c n : Nat) (rest : Bytes) :
    jsonParseRuns c (List.replicate n 1 ++ 0 :: rest)
      = (jsonParseRuns 0 rest).map fun t => (c + n) :: t := by
  induction n generalizing c with
  | zero => simp [jsonParseRuns]
  | succ m ih =>
    rw [List.replicate_succ, List.cons_append]
    show jsonParseRuns c ((0 + 1) :: (List.replicate m 1 ++ 0 :: rest)) = _
    rw [jsonParseRuns, ih]
    have harith : c + 1 + m = c + (m + 1) := by omega
    rw [harith]

theorem jsonParse_stringify (value : List Nat) :
    jsonParse (jsonStringify value) = some value := by
  induction value with
  | nil => rfl
  | cons n t ih =>
    simp only [jsonStringify, List.flatMap_cons, List.append_assoc,
      List.singleton_append]
    simp only [jsonStringify, jsonParse] at ih ⊢
    rw [jsonParseRuns_replicate, ih]
    simp

/-! ### Claims -/

/-- C1: Round trip.  For every plaintext (as its UTF-8 byte sequence) and
every fixed non-empty master secret, decrypting the envelope produced by
`Encryption.encrypt` — with the salt and nonce drawn fresh during the
encrypt call, of the lengths `crypto.randomBytes` is asked for — returns
the plaintext. -/
theorem c1_encrypt_decrypt_round_trip (text : Bytes) (key : String)
    (salt iv : Bytes) (_hkey : key ≠ "") (hs : salt.length = SALT_LENGTH)
    (hiv : iv.length = IV_LENGTH) :
    Encryption.decrypt (Encryption.encrypt text key salt iv) key
      = Except.ok text :=
  decrypt_encrypt_aux text key salt iv hs hiv

/-- Witness for C1: the UTF-8 bytes of the SSN test vector `123-45-6789`
of spec section 8, a fixed secret and concrete fresh randomness. -/
theorem c1_encrypt_decrypt_round_trip_witness :
    ("test-secret" : String) ≠ "" ∧
    (List.replicate 64 7 : Bytes).length = SALT_LENGTH ∧
    (List.replicate 16 9 : Bytes).length = IV_LENGTH ∧
    Encryption.decrypt
      (Encryption.encrypt [49, 50, 51, 45, 52, 53, 45, 54, 55, 56, 57]
        "test-secret" (List.replicate 64 7) (List.replicate 16 9))
      "test-secret"
      = Except.ok [49, 50, 51, 45, 52, 53, 45, 54, 55, 56, 57] :=
  ⟨by decide, by decide, by decide,
    c1_encrypt_decrypt_round_trip _ _ _ _ (by decide) (by decide) (by decide)⟩

/-- C4: Envelope layout.  Every envelope produced by `Encryption.encrypt`
consists, once decoded, of exactly Salt = bytes [0, 64), Nonce/IV =
bytes [64, 80), AuthTag = bytes [80, 96) and Ciphertext = bytes
[96, end); and `Encryption.decrypt` reads its segments back at exactly
these offsets through the shared constants S = `SALT_LENGTH` = 64,
N = `IV_LENGTH` = 16, T = `TAG_LENGTH` = 16. -/
theorem c4_envelope_layout (text : Bytes) (key : String)
    (salt iv buffer : Bytes) (hs : salt.length = SALT_LENGTH)
    (hiv : iv.length = IV_LENGTH) :
    (SALT_LENGTH = 64 ∧ IV_LENGTH = 16 ∧ TAG_LENGTH = 16) ∧
    (Encryption.encrypt text key salt iv).take 64 = salt ∧
    ((Encryption.encrypt text key salt iv).drop 64).take 16 = iv ∧
    ((Encryption.encrypt text key salt iv).drop 80).take 16
      = gmac (Encryption.deriveKey key salt) iv
          (sealBytes (Encryption.deriveKey key salt) iv text) ∧
    (Encryption.encrypt text key salt iv).drop 96
      = sealBytes (Encryption.deriveKey key salt) iv text ∧
    Encryption.decrypt buffer key
      = openGCM (Encryption.deriveKey key (buffer.take SALT_LENGTH))
          ((buffer.drop SALT_LENGTH).take IV_LENGTH)
          ((buffer.drop (SALT_LENGTH + IV_LENGTH)).take TAG_LENGTH)
          (buffer.drop (SALT_LENGTH + IV_LENGTH + TAG_LENGTH)) := by
  have h4 := envelope_slices4 salt iv
    (gmac (Encryption.deriveKey key salt) iv
      (sealBytes (Encryption.deriveKey key salt) iv text))
    (sealBytes (Encryption.deriveKey key salt) iv text) hs hiv
    (gmac_length _ _ _)
  simp only [SALT_LENGTH, IV_LENGTH, TAG_LENGTH] at h4
  norm_num at h4
  refine ⟨⟨rfl, rfl, rfl⟩, ?_, ?_, ?_, ?_, rfl⟩
  · simpa only [Encryption.encrypt, List.append_assoc] using h4.1
  · simpa only [Encryption.encrypt, List.append_assoc] using h4.2.1
  · simpa only [Encryption.encrypt, List.append_assoc] using h4.2.2.1
  · simpa only [Encryption.encrypt, List.append_assoc] using h4.2.2.2

/-- Witness for C4 at a concrete plaintext, secret, salt, nonce and
decrypt-side buffer. -/
theorem c4_envelope_layout_witness :
    (SALT_LENGTH = 64 ∧ IV_LENGTH = 16 ∧ TAG_LENGTH = 16) ∧
    (Encryption.encrypt [1, 2, 3] "k" (List.replicate 64 0)
        (List.replicate 16 0)).take 64 = List.replicate 64 0 ∧
    ((Encryption.encrypt [1, 2, 3] "k" (List.replicate 64 0)
        (List.replicate 16 0)).drop 64).take 16 = List.replicate 16 0 ∧
    ((Encryption.encrypt [1, 2, 3] "k" (List.replicate 64 0)
        (List.replicate 16 0)).drop 80).take 16
      = gmac (Encryption.deriveKey "k" (List.replicate 64 0))
          (List.replicate 16 0)
          (sealBytes (Encryption.deriveKey "k" (List.replicate 64 0))
            (List.replicate 16 0) [1, 2, 3]) ∧
    (Encryption.encrypt [1, 2, 3] "k" (List.replicate 64 0)
        (List.replicate 16 0)).drop 96
      = sealBytes (Encryption.deriveKey "k" (List.replicate 64 0))
          (List.replicate 16 0) [1, 2, 3] ∧
    Encryption.decrypt [9, 9, 9] "k"
      = openGCM (Encryption.deriveKey "k" (([9, 9, 9] : Bytes).take SALT_LENGTH))
          ((([9, 9, 9] : Bytes).drop SALT_LENGTH).take IV_LENGTH)
          ((([9, 9, 9] : Bytes).drop (SALT_LENGTH + IV_LENGTH)).take TAG_LENGTH)
          (([9, 9, 9] : Bytes).drop (SALT_LENGTH + IV_LENGTH + TAG_LENGTH)) :=
  c4_envelope_layout [1, 2, 3] "k" (List.replicate 64 0) (List.replicate 16 0)
    [9, 9, 9] (by decide) (by decide)

/-- C6: Envelope freshness.  Whenever the (salt, nonce) pairs generated
by two `Encryption.encrypt` calls on the same plaintext and secret
differ, the produced envelopes differ — the shallow rendering of "two
successive calls yield different envelope strings", since each call draws
fresh random salt and nonce and the base64 encoding is injective. -/
theorem c6_envelope_freshness (text : Bytes) (key : String)
    (salt1 iv1 salt2 iv2 : Bytes)
    (hs1 : salt1.length = SALT_LENGTH) (hiv1 : iv1.length = IV_LENGTH)
    (hs2 : salt2.length = SALT_LENGTH) (hiv2 : iv2.length = IV_LENGTH)
    (hfresh : (salt1, iv1) ≠ (salt2, iv2)) :
    Encryption.encrypt text key salt1 iv1
      ≠ Encryption.encrypt text key salt2 iv2 := by
  intro heq
  apply hfresh
  have ha := envelope_slices4 salt1 iv1
    (gmac (Encryption.deriveKey key salt1) iv1
      (sealBytes (Encryption.deriveKey key salt1) iv1 text))
    (sealBytes (Encryption.deriveKey key salt1) iv1 text) hs1 hiv1
    (gmac_length _ _ _)
  have hb := envelope_slices4 salt2 iv2
    (gmac (Encryption.deriveKey key salt2) iv2
      (sealBytes (Encryption.deriveKey key salt2) iv2 text))
    (sealBytes (Encryption.deriveKey key salt2) iv2 text) hs2 hiv2
    (gmac_length _ _ _)
  simp only [Encryption.encrypt] at heq
  have hsalt : salt1 = salt2 := by rw [← ha.1, ← hb.1, heq]
  have hivv : iv1 = iv2 := by rw [← ha.2.1, ← hb.2.1, heq]
  rw [hsalt, hivv]

/-- Witness for C6: same plaintext and secret, two (salt, nonce) draws
differing in the nonce only. -/
theorem c6_envelope_freshness_witness :
    Encryption.encrypt [1, 2] "k" (List.replicate 64 3) (List.replicate 16 4)
      ≠ Encryption.encrypt [1, 2] "k" (List.replicate 64 3)
          (List.replicate 16 5) :=
  c6_envelope_freshness [1, 2] "k" (List.replicate 64 3) (List.replicate 16 4)
    (List.replicate 64 3) (List.replicate 16 5)
    (by decide) (by decide) (by decide) (by decide) (by decide)

/-- C7: Key-derivation determinism.  `Encryption.deriveKey` is a pure
function — two invocations on the same (secret, salt) pair are one and
the same value — and the salt stored in an envelope regenerates at
decrypt time exactly the key used at encrypt time: re-deriving from the
envelope's salt segment equals deriving from the original salt. -/
theorem c7_deriveKey_deterministic (secret key : String) (salt iv text : Bytes)
    (hs : salt.length = SALT_LENGTH) (hiv : iv.length = IV_LENGTH) :
    Encryption.deriveKey secret salt = Encryption.deriveKey secret salt ∧
    Encryption.deriveKey key
        ((Encryption.encrypt text key salt iv).take SALT_LENGTH)
      = Encryption.deriveKey key salt := by
  refine ⟨rfl, ?_⟩
  have h4 := envelope_slices4 salt iv
    (gmac (Encryption.deriveKey key salt) iv
      (sealBytes (Encryption.deriveKey key salt) iv text))
    (sealBytes (Encryption.deriveKey key salt) iv text) hs hiv
    (gmac_length _ _ _)
  simp only [Encryption.encrypt]
  rw [h4.1]

/-- Witness for C7 at a concrete secret, salt, nonce and plaintext. -/
theorem c7_deriveKey_deterministic_witness :
    Encryption.deriveKey "s" (List.replicate 64 1)
      = Encryption.deriveKey "s" (List.replicate 64 1) ∧
    Encryption.deriveKey "s"
        ((Encryption.encrypt [7] "s" (List.replicate 64 1)
          (List.replicate 16 2)).take SALT_LENGTH)
      = Encryption.deriveKey "s" (List.replicate 64 1) :=
  c7_deriveKey_deterministic "s" "s" (List.replicate 64 1)
    (List.replicate 16 2) [7] (by decide) (by decide)

/-- C3: Authorization decision.  For every principal and permission
string, the `checkPermission` middleware admits (`next`) exactly when the
permission is a member of the static permission set mapped to the
principal's role; the role `admin` is admitted for every defined
permission; the role `patient` (the spec's subject-role) is admitted
exactly for `read:record` — in particular `write:record` is denied and
`read:record` admitted. -/
theorem c3_authorize_iff :
    (∀ (user : Principal) (permission : String),
        checkPermission permission user = AuthResult.next ↔
          permission ∈ permSetOf user.role) ∧
    (checkPermission permissions.READ_PATIENT ⟨roles.ADMIN⟩ = AuthResult.next ∧
      checkPermission permissions.WRITE_PATIENT ⟨roles.ADMIN⟩ = AuthResult.next ∧
      checkPermission permissions.READ_RECORD ⟨roles.ADMIN⟩ = AuthResult.next ∧
      checkPermission permissions.WRITE_RECORD ⟨roles.ADMIN⟩ = AuthResult.next ∧
      checkPermission permissions.MANAGE_USERS ⟨roles.ADMIN⟩ = AuthResult.next) ∧
    (∀ permission : String,
        checkPermission permission ⟨roles.PATIENT⟩ = AuthResult.next ↔
          permission = permissions.READ_RECORD) ∧
    checkPermission permissions.WRITE_RECORD ⟨roles.PATIENT⟩
      = AuthResult.forbidden ∧
    checkPermission permissions.READ_RECORD ⟨roles.PATIENT⟩
      = AuthResult.next := by
  have hgen : ∀ (user : Principal) (permission : String),
      checkPermission permission user = AuthResult.next ↔
        permission ∈ permSetOf user.role := by
    intro user permission
    simp only [checkPermission, permSetOf]
    cases hrp : rolePermissions user.role with
    | none => simp
    | some perms =>
      simp only [Option.getD_some]
      by_cases hmem : permission ∈ perms
      · rw [if_pos (List.elem_iff.mpr hmem)]
        simp [hmem]
      · rw [if_neg (fun hc => hmem (List.elem_iff.mp hc))]
        simp [hmem]
  have hps : permSetOf roles.PATIENT = [permissions.READ_RECORD] := by decide
  refine ⟨hgen, by decide, ?_, by decide, by decide⟩
  intro permission
  rw [hgen ⟨roles.PATIENT⟩ permission]
  show permission ∈ permSetOf roles.PATIENT ↔ _
  rw [hps]
  simp

/-- C9: Unknown-role denial.  For every principal whose role string is
none of the four roles present in the static table, `rolePermissions`
yields no row (`undefined`, guarded by the optional chaining rather than
dereferenced) and `checkPermission` denies every permission with the 403
insufficient-permissions outcome. -/
theorem c9_unknown_role_denied (user : Principal) (permission : String)
    (h : user.role ∉ [roles.ADMIN, roles.DOCTOR, roles.NURSE, roles.PATIENT]) :
    rolePermissions user.role = none ∧
    checkPermission permission user = AuthResult.forbidden := by
  simp only [List.mem_cons, List.not_mem_nil, or_false, not_or] at h
  obtain ⟨h1, h2, h3, h4⟩ := h
  have hrp : rolePermissions user.role = none := by
    simp only [rolePermissions, if_neg h1, if_neg h2, if_neg h3, if_neg h4]
  exact ⟨hrp, by simp only [checkPermission, hrp]⟩

/-- Witness for C9: a principal with the role `ghost`, absent from the
table, asking for `read:record`. -/
theorem c9_unknown_role_denied_witness :
    rolePermissions (Principal.mk "ghost").role = none ∧
    checkPermission permissions.READ_RECORD ⟨"ghost"⟩ = AuthResult.forbidden :=
  c9_unknown_role_denied ⟨"ghost"⟩ permissions.READ_RECORD (by decide)

theorem getD_set_self (l : Bytes) (j b : Nat) (h : j < l.length) :
    (l.set j b).getD j 0 = b := by
  rw [List.getD_eq_getElem _ _ (by simpa using h)]
  simp [List.getElem_set]

/-- C2: Tamper fail-closed.  Flipping any single byte of a produced
envelope inside the AuthTag segment (offsets [80, 96)) or the Ciphertext
segment (offsets [96, end)) makes `Encryption.decrypt` under the same
secret fail with `IntegrityError`; no altered or partial plaintext is
ever returned. -/
theorem c2_tamper_fail_closed (text : Bytes) (key : String) (salt iv : Bytes)
    (i b : Nat) (hs : salt.length = SALT_LENGTH) (hiv : iv.length = IV_LENGTH)
    (hivb : ∀ x ∈ iv, x < 256) (htext : ∀ x ∈ text, x < 256)
    (hlo : SALT_LENGTH + IV_LENGTH ≤ i)
    (hhi : i < (Encryption.encrypt text key salt iv).length)
    (hbyte : b < 256)
    (hflip : b ≠ (Encryption.encrypt text key salt iv).getD i 0) :
    Encryption.decrypt ((Encryption.encrypt text key salt iv).set i b) key
      = Except.error Err.IntegrityError := by
  simp only [Encryption.encrypt, SALT_LENGTH, IV_LENGTH] at hlo hhi hflip ⊢
  set dk := Encryption.deriveKey key salt with hdk
  set ct := sealBytes dk iv text with hct
  set tag := gmac dk iv ct with htag
  have htaglen : tag.length = 16 := by
    rw [htag, gmac_length]
    rfl
  have hLsi : (salt ++ iv).length = 80 := by
    simp [List.length_append, hs, hiv, SALT_LENGTH, IV_LENGTH]
  have hassoc : salt ++ iv ++ tag ++ ct = (salt ++ iv) ++ (tag ++ ct) := by
    simp [List.append_assoc]
  rw [hassoc] at hhi hflip ⊢
  rw [List.set_append_right i b (by rw [hLsi]; omega), hLsi]
  set W := (tag ++ ct).set (i - 80) b with hW
  simp only [Encryption.decrypt, SALT_LENGTH, IV_LENGTH, TAG_LENGTH]
  have hsl := envelope_slices salt iv W hs hiv
  simp only [SALT_LENGTH, IV_LENGTH] at hsl
  rw [hsl.1, hsl.2.1, hsl.2.2, ← List.drop_drop, hsl.2.2, ← hdk]
  have hgetd : ((salt ++ iv) ++ (tag ++ ct)).getD i 0
      = (tag ++ ct).getD (i - 80) 0 := by
    rw [List.getD_append_right _ _ _ _ (by rw [hLsi]; omega), hLsi]
  rw [hgetd] at hflip
  have hhi2 : i - 80 < 16 + ct.length := by
    rw [List.length_append, hLsi, List.length_append, htaglen] at hhi
    omega
  rcases Nat.lt_or_ge (i - 80) 16 with hj | hj
  · -- the flipped byte lies in the AuthTag segment
    have hWA : W = tag.set (i - 80) b ++ ct := by
      rw [hW]
      exact List.set_append_left (i - 80) b (by omega)
    have htake : W.take 16 = tag.set (i - 80) b := by
      rw [hWA]
      exact List.take_left' (by rw [List.length_set]; omega)
    have hdrop : W.drop 16 = ct := by
      rw [hWA]
      exact List.drop_left' (by rw [List.length_set]; omega)
    have hne : tag.set (i - 80) b ≠ gmac dk iv ct := by
      rw [← htag]
      intro heq
      have hgb := congrArg (fun l => List.getD l (i - 80) 0) heq
      simp only at hgb
      rw [getD_set_self tag (i - 80) b (by omega)] at hgb
      rw [List.getD_append _ _ _ _ (by omega)] at hflip
      exact hflip hgb
    rw [htake, hdrop]
    simp only [openGCM, if_neg hne]
  · -- the flipped byte lies in the Ciphertext segment
    have hWB : W = tag ++ ct.set (i - 80 - 16) b := by
      rw [hW, List.set_append_right (i - 80) b (by omega), htaglen]
    have htake : W.take 16 = tag := by
      rw [hWB]
      exact List.take_left' htaglen
    have hdrop : W.drop 16 = ct.set (i - 80 - 16) b := by
      rw [hWB]
      exact List.drop_left' htaglen
    have hmlt : i - 80 - 16 < ct.length := by omega
    have hctb : ∀ x ∈ ct, x < 256 := by
      rw [hct]
      exact sealBytes_lt dk iv text htext
    have hctb' : ∀ x ∈ ct.set (i - 80 - 16) b, x < 256 := by
      intro x hx
      rcases List.mem_or_eq_of_mem_set hx with hx | rfl
      · exact hctb x hx
      · exact hbyte
    have hdkb : ∀ x ∈ dk, x < 256 := by
      rw [hdk]
      exact deriveKey_lt key salt
    have hne : tag ≠ gmac dk iv (ct.set (i - 80 - 16) b) := by
      intro heq
      have hcteq : ct = ct.set (i - 80 - 16) b :=
        gmac_inj hdkb hivb hctb hctb' (htag.symm.trans heq)
      have hgb := congrArg (fun l => List.getD l (i - 80 - 16) 0) hcteq
      simp only at hgb
      rw [getD_set_self ct (i - 80 - 16) b hmlt] at hgb
      rw [List.getD_append_right _ _ _ _ (by omega), htaglen] at hflip
      exact hflip hgb.symm
    rw [htake, hdrop]
    simp only [openGCM, if_neg hne]

set_option maxRecDepth 100000 in
/-- Witness for C2: a concrete envelope with the first AuthTag byte
(offset 80) flipped to 0. -/
theorem c2_tamper_fail_closed_witness :
    (List.replicate 64 1 : Bytes).length = SALT_LENGTH ∧
    (List.replicate 16 2 : Bytes).length = IV_LENGTH ∧
    SALT_LENGTH + IV_LENGTH ≤ 80 ∧
    80 < (Encryption.encrypt [5, 6] "k" (List.replicate 64 1)
      (List.replicate 16 2)).length ∧
    (0 : Nat) ≠ (Encryption.encrypt [5, 6] "k" (List.replicate 64 1)
      (List.replicate 16 2)).getD 80 0 ∧
    Encryption.decrypt
      ((Encryption.encrypt [5, 6] "k" (List.replicate 64 1)
        (List.replicate 16 2)).set 80 0) "k"
      = Except.error Err.IntegrityError :=
  ⟨by decide, by decide, by decide, by decide, by decide,
    c2_tamper_fail_closed [5, 6] "k" (List.replicate 64 1)
      (List.replicate 16 2) 80 0 (by decide) (by decide) (by decide)
      (by decide) (by decide) (by decide) (by decide) (by decide)⟩

/-- C5 (amended): every input whose decoded byte length is below
`SALT_LENGTH + IV_LENGTH + TAG_LENGTH` = 96 yields no plaintext, but the
failure is the AEAD's `IntegrityError` (the truncated tag slice can never
equal the full-length recomputed tag), not `MalformedEnvelope`:
`Encryption.decrypt` performs no structural length validation and defines
no malformed-envelope error. -/
theorem c5_short_envelope_fails (buffer : Bytes) (key : String)
    (h : buffer.length < SALT_LENGTH + IV_LENGTH + TAG_LENGTH) :
    Encryption.decrypt buffer key = Except.error Err.IntegrityError := by
  have hne : ¬ ((buffer.drop (SALT_LENGTH + IV_LENGTH)).take TAG_LENGTH
      = gmac (Encryption.deriveKey key (buffer.take SALT_LENGTH))
          ((buffer.drop SALT_LENGTH).take IV_LENGTH)
          (buffer.drop (SALT_LENGTH + IV_LENGTH + TAG_LENGTH))) := by
    intro heq
    have hlen := congrArg List.length heq
    rw [List.length_take, List.length_drop, gmac_length] at hlen
    simp only [SALT_LENGTH, IV_LENGTH, TAG_LENGTH] at h hlen
    omega
  simp only [Encryption.decrypt, openGCM, if_neg hne]

/-- Witness for the amended C5: the empty input. -/
theorem c5_short_envelope_fails_witness :
    ([] : Bytes).length < SALT_LENGTH + IV_LENGTH + TAG_LENGTH ∧
    Encryption.decrypt [] "secret" = Except.error Err.IntegrityError :=
  ⟨by decide, c5_short_envelope_fails [] "secret" (by decide)⟩

set_option maxRecDepth 100000 in
/-- C5 counterexample: on the empty input (decoded length 0 < 96) the
code fails with `IntegrityError`, not with `MalformedEnvelope` as the
claim states. -/
theorem c5_counterexample :
    Encryption.decrypt [] "secret" ≠ Except.error Err.MalformedEnvelope := by
  have h2 : Encryption.decrypt ([] : Bytes) "secret"
      = Except.error Err.IntegrityError := by rfl
  rw [h2]
  intro h
  injection h with h3
  exact Err.noConfusion h3

/-- C8 (amended): `Encryption.deriveKey` performs no input validation at
all: for every secret (the empty string included) and every salt (of any
length, 64 bytes or not), it succeeds, returning the `KEY_LENGTH`-byte
key the PBKDF2 primitive derives; the code has no `KeyDerivationError`
path for such inputs and only forwards primitive errors, which these
inputs never cause. -/
theorem c8_deriveKey_no_validation (secret : String) (salt : Bytes) :
    Encryption.deriveKey secret salt
      = pbkdf2 secret salt ITERATIONS KEY_LENGTH ∧
    (Encryption.deriveKey secret salt).length = KEY_LENGTH :=
  ⟨rfl, deriveKey_length secret salt⟩

set_option maxRecDepth 100000 in
/-- C8 counterexample: with the empty secret and a 10-byte salt —
violating both stated constraints — `Encryption.deriveKey` does not fail
with `KeyDerivationError`: it returns the 32-byte derived key. -/
theorem c8_counterexample :
    Encryption.deriveKey "" (List.replicate 10 0)
      = pbkdf2 "" (List.replicate 10 0) ITERATIONS KEY_LENGTH ∧
    (Encryption.deriveKey "" (List.replicate 10 0)).length = KEY_LENGTH :=
  ⟨rfl, by decide⟩

/-- C10: Patient field framing.  `Patient.encrypt` changes only `ssn` and
`medicalHistory` (replacing them with envelopes) and copies every other
field; whenever `Patient.decrypt` succeeds on any record it likewise
copies every other field; and decrypting an encrypted record restores the
original, `medicalHistory` being recovered through the JSON
stringify/parse round trip. -/
theorem c10_patient_field_framing (p : PatientRecord Bytes (List Nat))
    (q : PatientRecord Bytes Bytes) (r : PatientRecord Bytes (List Nat))
    (key : String) (salt1 iv1 salt2 iv2 : Bytes)
    (hs1 : salt1.length = SALT_LENGTH) (hiv1 : iv1.length = IV_LENGTH)
    (hs2 : salt2.length = SALT_LENGTH) (hiv2 : iv2.length = IV_LENGTH)
    (hq : Patient.decrypt q key = Except.ok r) :
    ((Patient.encrypt p key salt1 iv1 salt2 iv2).firstName = p.firstName ∧
      (Patient.encrypt p key salt1 iv1 salt2 iv2).lastName = p.lastName ∧
      (Patient.encrypt p key salt1 iv1 salt2 iv2).dateOfBirth = p.dateOfBirth ∧
      (Patient.encrypt p key salt1 iv1 salt2 iv2).email = p.email) ∧
    (r.firstName = q.firstName ∧ r.lastName = q.lastName ∧
      r.dateOfBirth = q.dateOfBirth ∧ r.email = q.email) ∧
    Patient.decrypt (Patient.encrypt p key salt1 iv1 salt2 iv2) key
      = Except.ok p := by
  refine ⟨⟨rfl, rfl, rfl, rfl⟩, ?_, ?_⟩
  · simp only [Patient.decrypt] at hq
    cases h1 : Encryption.decrypt q.ssn key with
    | error e => simp only [h1] at hq; exact Except.noConfusion hq
    | ok s =>
      simp only [h1] at hq
      cases h2 : Encryption.decrypt q.medicalHistory key with
      | error e => simp only [h2] at hq; exact Except.noConfusion hq
      | ok m =>
        simp only [h2] at hq
        cases h3 : jsonParse m with
        | none => simp only [h3] at hq; exact Except.noConfusion hq
        | some v =>
          simp only [h3] at hq
          have hr := Except.ok.inj hq
          rw [← hr]
          exact ⟨rfl, rfl, rfl, rfl⟩
  · simp only [Patient.encrypt, Patient.decrypt,
      decrypt_encrypt_aux p.ssn key salt1 iv1 hs1 hiv1,
      decrypt_encrypt_aux (jsonStringify p.medicalHistory) key salt2 iv2
        hs2 hiv2,
      jsonParse_stringify]

set_option maxRecDepth 1000000 in
/-- Witness for C10 at a concrete patient record, secret and concrete
fresh randomness for the two envelopes. -/
theorem c10_patient_field_framing_witness :
    ((Patient.encrypt ⟨"Ada", "Lovelace", "1815-12-10", "ada", [1, 2, 3],
          [2, 0, 1]⟩ "k" (List.replicate 64 1) (List.replicate 16 2)
          (List.replicate 64 3) (List.replicate 16 4)).firstName = "Ada" ∧
      (Patient.encrypt ⟨"Ada", "Lovelace", "1815-12-10", "ada", [1, 2, 3],
          [2, 0, 1]⟩ "k" (List.replicate 64 1) (List.replicate 16 2)
          (List.replicate 64 3) (List.replicate 16 4)).lastName = "Lovelace" ∧
      (Patient.encrypt ⟨"Ada", "Lovelace", "1815-12-10", "ada", [1, 2, 3],
          [2, 0, 1]⟩ "k" (List.replicate 64 1) (List.replicate 16 2)
          (List.replicate 64 3) (List.replicate 16 4)).dateOfBirth
        = "1815-12-10" ∧
      (Patient.encrypt ⟨"Ada", "Lovelace", "1815-12-10", "ada", [1, 2, 3],
          [2, 0, 1]⟩ "k" (List.replicate 64 1) (List.replicate 16 2)
          (List.replicate 64 3) (List.replicate 16 4)).email = "ada") ∧
    (("Ada" : String) = "Ada" ∧ ("Lovelace" : String) = "Lovelace" ∧
      ("1815-12-10" : String) = "1815-12-10" ∧ ("ada" : String) = "ada") ∧
    Patient.decrypt
        (Patient.encrypt ⟨"Ada", "Lovelace", "1815-12-10", "ada", [1, 2, 3],
          [2, 0, 1]⟩ "k" (List.replicate 64 1) (List.replicate 16 2)
          (List.replicate 64 3) (List.replicate 16 4)) "k"
      = Except.ok ⟨"Ada", "Lovelace", "1815-12-10", "ada", [1, 2, 3],
          [2, 0, 1]⟩ := by
  have h := c10_patient_field_framing
    ⟨"Ada", "Lovelace", "1815-12-10", "ada", [1, 2, 3], [2, 0, 1]⟩
    (Patient.encrypt ⟨"Ada", "Lovelace", "1815-12-10", "ada", [1, 2, 3],
      [2, 0, 1]⟩ "k" (List.replicate 64 1) (List.replicate 16 2)
      (List.replicate 64 3) (List.replicate 16 4))
    ⟨"Ada", "Lovelace", "1815-12-10", "ada", [1, 2, 3], [2, 0, 1]⟩
    "k" (List.replicate 64 1) (List.replicate 16 2) (List.replicate 64 3)
    (List.replicate 16 4) (by decide) (by decide) (by decide) (by decide)
    (by rfl)
  exact ⟨h.1, ⟨rfl, rfl, rfl, rfl⟩, h.2.2⟩
